import Mathlib

/-!
Verification of the LiveJournal scraper pipeline (src/livejournal_scraper.py).

The Python source is shallowly embedded: pure string/date manipulation is
translated to executable Lean functions; the stateful scrape / export loop
becomes explicit state passing; network fetches and file writes become
oracle parameters; a raised exception becomes an explicit flag or `none`.
-/

namespace LJ

/-! ## ASCII helpers mirroring Python string semantics -/

/-- Lowercase an ASCII letter, mirroring Python case-insensitive matching
(re.IGNORECASE) restricted to ASCII, which is all the scraper's formats use. -/
def lowerAscii (c : Char) : Char :=
  if 65 ≤ c.toNat ∧ c.toNat ≤ 90 then Char.ofNat (c.toNat + 32) else c

/-- Python regex whitespace class over ASCII: space, tab, newline, carriage
return, vertical tab, form feed. -/
def pyIsSpace (c : Char) : Bool :=
  c = ' ' || c = '\t' || c = '\n' || c = '\r' || c = '\x0b' || c = '\x0c'

/-- The ten decimal digit characters. -/
def dchars : List Char := ['0', '1', '2', '3', '4', '5', '6', '7', '8', '9']

/-- Decimal digit character of `k % 10`, as produced by a zero-padded
`strftime` numeric field. -/
def digitChar (k : Nat) : Char :=
  dchars.get ⟨k % 10, by have := Nat.mod_lt k (show 0 < 10 by norm_num); simpa [dchars] using this⟩

/-- Numeric value of a digit character. -/
def dv (c : Char) : Nat := c.toNat - 48

/-- Two-digit zero-padded rendering (strftime %02d) of `n ≤ 99`. -/
def pad2 (n : Nat) : List Char := [digitChar (n / 10), digitChar n]

/-- Four-digit zero-padded rendering (strftime %Y for years up to 9999) of `n`. -/
def pad4 (n : Nat) : List Char :=
  [digitChar (n / 1000), digitChar (n / 100), digitChar (n / 10), digitChar n]

/-! ## Python strptime, restricted to the scraper's literal formats

CPython's `_strptime` compiles the format into a regex (case-insensitive,
anchored at the start, required to consume the whole string) and then builds
a `datetime`, which validates the calendar date.  Each directive below keeps
the exact alternation of the CPython regex fragment, including the order of
two-digit before one-digit alternatives and regex backtracking into the rest
of the format.
-/

/-- Directive tokens of the compiled format strings. `ch c` is a literal
character matched case-insensitively; `ws` is a run of whitespace (a space in
the format becomes the regex fragment matching one or more spaces). -/
inductive Tok where
  | b | B | m | d | Y | I | H | M | S | p
  | ws
  | ch (c : Char)
deriving Repr, DecidableEq

/-- Fields recovered by strptime before datetime validation; defaults are
CPython's (year 1900, month 1, day 1, midnight). `ampm` records a parsed
%p meridiem: `false` for AM, `true` for PM. -/
structure Raw where
  year : Nat := 1900
  month : Nat := 1
  day : Nat := 1
  hour : Nat := 0
  minute : Nat := 0
  second : Nat := 0
  ampm : Option Bool := none
deriving Repr, DecidableEq

/-- Case-insensitive prefix strip: `n` is a lowercase pattern; returns the
remaining input on match. -/
def stripCI : List Char → List Char → Option (List Char)
  | [], cs => some cs
  | _ :: _, [] => none
  | n :: ns, c :: cs => if lowerAscii c = n then stripCI ns cs else none

/-- Month names (lowercase) with their month numbers, for %b. -/
def monthAbbrevs : List (List Char × Nat) :=
  [(['j','a','n'], 1), (['f','e','b'], 2), (['m','a','r'], 3), (['a','p','r'], 4),
   (['m','a','y'], 5), (['j','u','n'], 6), (['j','u','l'], 7), (['a','u','g'], 8),
   (['s','e','p'], 9), (['o','c','t'], 10), (['n','o','v'], 11), (['d','e','c'], 12)]

/-- Full month names (lowercase) with their month numbers, for %B. -/
def monthFulls : List (List Char × Nat) :=
  [(['j','a','n','u','a','r','y'], 1), (['f','e','b','r','u','a','r','y'], 2),
   (['m','a','r','c','h'], 3), (['a','p','r','i','l'], 4), (['m','a','y'], 5),
   (['j','u','n','e'], 6), (['j','u','l','y'], 7), (['a','u','g','u','s','t'], 8),
   (['s','e','p','t','e','m','b','e','r'], 9), (['o','c','t','o','b','e','r'], 10),
   (['n','o','v','e','m','b','e','r'], 11), (['d','e','c','e','m','b','e','r'], 12)]

/-- Match one month name from a table (first match wins; the names are
pairwise prefix-free so this agrees with the regex alternation). -/
def matchMonth (names : List (List Char × Nat)) (cs : List Char) : Option (Nat × List Char) :=
  names.findSome? fun nv => (stripCI nv.1 cs).map fun rest => (nv.2, rest)

/-- Run a compiled format over the input, mirroring the CPython strptime
regex: anchored at the start, whole string must be consumed, numeric
directives try their two-digit alternatives before the one-digit one and
backtrack into the remainder of the format. -/
def runToks : List Tok → List Char → Raw → Option Raw
  | [], [], st => some st
  | [], _ :: _, _ => none
  | .ws :: ts, cs, st =>
    match cs with
    | c :: cs' => if pyIsSpace c then runToks ts (List.dropWhile pyIsSpace cs') st else none
    | [] => none
  | .ch _ :: _, [], _ => none
  | .ch c :: ts, x :: cs, st =>
    if lowerAscii x = lowerAscii c then runToks ts cs st else none
  | .b :: ts, cs, st =>
    match matchMonth monthAbbrevs cs with
    | some (mo, rest) => runToks ts rest { st with month := mo }
    | none => none
  | .B :: ts, cs, st =>
    match matchMonth monthFulls cs with
    | some (mo, rest) => runToks ts rest { st with month := mo }
    | none => none
  | .p :: ts, cs, st =>
    match stripCI ['a','m'] cs with
    | some rest => runToks ts rest { st with ampm := some false }
    | none =>
      match stripCI ['p','m'] cs with
      | some rest => runToks ts rest { st with ampm := some true }
      | none => none
  | .Y :: ts, cs, st =>
    match cs with
    | a :: b :: c :: d :: rest =>
      if a.isDigit && b.isDigit && c.isDigit && d.isDigit then
        runToks ts rest { st with year := dv a * 1000 + dv b * 100 + dv c * 10 + dv d }
      else none
    | _ => none
  | .d :: ts, cs, st =>
    (match cs with
     | x :: y :: rest =>
       if x.isDigit && y.isDigit && 1 ≤ dv x * 10 + dv y && dv x * 10 + dv y ≤ 31 then
         runToks ts rest { st with day := dv x * 10 + dv y }
       else none
     | _ => none).orElse fun _ =>
    match cs with
    | x :: rest => if x.isDigit && 1 ≤ dv x && dv x ≤ 9 then runToks ts rest { st with day := dv x } else none
    | [] => none
  | .m :: ts, cs, st =>
    (match cs with
     | x :: y :: rest =>
       if x.isDigit && y.isDigit && 1 ≤ dv x * 10 + dv y && dv x * 10 + dv y ≤ 12 then
         runToks ts rest { st with month := dv x * 10 + dv y }
       else none
     | _ => none).orElse fun _ =>
    match cs with
    | x :: rest => if x.isDigit && 1 ≤ dv x && dv x ≤ 9 then runToks ts rest { st with month := dv x } else none
    | [] => none
  | .I :: ts, cs, st =>
    (match cs with
     | x :: y :: rest =>
       if x.isDigit && y.isDigit && 1 ≤ dv x * 10 + dv y && dv x * 10 + dv y ≤ 12 then
         runToks ts rest { st with hour := dv x * 10 + dv y }
       else none
     | _ => none).orElse fun _ =>
    match cs with
    | x :: rest => if x.isDigit && 1 ≤ dv x && dv x ≤ 9 then runToks ts rest { st with hour := dv x } else none
    | [] => none
  | .H :: ts, cs, st =>
    (match cs with
     | x :: y :: rest =>
       if x.isDigit && y.isDigit && dv x * 10 + dv y ≤ 23 then
         runToks ts rest { st with hour := dv x * 10 + dv y }
       else none
     | _ => none).orElse fun _ =>
    match cs with
    | x :: rest => if x.isDigit then runToks ts rest { st with hour := dv x } else none
    | [] => none
  | .M :: ts, cs, st =>
    (match cs with
     | x :: y :: rest =>
       if x.isDigit && y.isDigit && dv x * 10 + dv y ≤ 59 then
         runToks ts rest { st with minute := dv x * 10 + dv y }
       else none
     | _ => none).orElse fun _ =>
    match cs with
    | x :: rest => if x.isDigit then runToks ts rest { st with minute := dv x } else none
    | [] => none
  | .S :: ts, cs, st =>
    (match cs with
     | x :: y :: rest =>
       if x.isDigit && y.isDigit && dv x * 10 + dv y ≤ 61 then
         runToks ts rest { st with second := dv x * 10 + dv y }
       else none
     | _ => none).orElse fun _ =>
    match cs with
    | x :: rest => if x.isDigit then runToks ts rest { st with second := dv x } else none
    | [] => none

/-- A validated datetime as produced by a successful `datetime.strptime`. -/
structure DT where
  year : Nat
  month : Nat
  day : Nat
  hour : Nat
  minute : Nat
  second : Nat
deriving Repr, DecidableEq

/-- Gregorian leap year. -/
def isLeap (y : Nat) : Bool := (y % 4 = 0 && y % 100 ≠ 0) || y % 400 = 0

/-- Days in a month of the proleptic Gregorian calendar. -/
def daysInMonth (y mo : Nat) : Nat :=
  if mo = 2 then (if isLeap y then 29 else 28)
  else if mo = 4 ∨ mo = 6 ∨ mo = 9 ∨ mo = 11 then 30
  else 31

/-- Build the `datetime` from parsed fields: resolve the 12-hour clock
against the meridiem exactly as CPython does, then validate the ranges the
`datetime` constructor enforces. -/
def toDatetime (r : Raw) : Option DT :=
  let hour :=
    match r.ampm with
    | none => r.hour
    | some false => if r.hour = 12 then 0 else r.hour
    | some true => if r.hour = 12 then 12 else r.hour + 12
  if 1 ≤ r.year ∧ r.year ≤ 9999 ∧ 1 ≤ r.month ∧ r.month ≤ 12 ∧
     1 ≤ r.day ∧ r.day ≤ daysInMonth r.year r.month ∧
     hour ≤ 23 ∧ r.minute ≤ 59 ∧ r.second ≤ 59 then
    some ⟨r.year, r.month, r.day, hour, r.minute, r.second⟩
  else none

/-- Compiled form of the format string with the literal pieces of
the Python source: month abbreviation with period, 12-hour time. -/
def fmtToks1 : List Tok :=
  [.b, .ch '.', .ws, .d, .ch ',', .ws, .Y, .ws, .ch 'a', .ch 't', .ws, .I, .ch ':', .M, .ws, .p]

/-- Compiled form of the full-month-name format string. -/
def fmtToks2 : List Tok :=
  [.B, .ws, .d, .ch ',', .ws, .Y, .ws, .ch 'a', .ch 't', .ws, .I, .ch ':', .M, .ws, .p]

/-- Compiled form of the day-before-month format string. -/
def fmtToks3 : List Tok :=
  [.d, .ws, .B, .ws, .Y, .ws, .ch 'a', .ch 't', .ws, .I, .ch ':', .M, .ws, .p]

/-- Compiled form of the numeric slash-date format string. -/
def fmtToks4 : List Tok :=
  [.m, .ch '/', .d, .ch '/', .Y, .ws, .I, .ch ':', .M, .ws, .p]

/-- Compiled form of the stricter comment-date format used in save_file
(month abbreviation with period but no literal at between date and time). -/
def fmtToksStrict : List Tok :=
  [.b, .ch '.', .ws, .d, .ch ',', .ws, .Y, .ws, .I, .ch ':', .M, .ws, .p]

/-- Compiled form of the canonical timestamp format used when grouping
posts by year in save_file. -/
def fmtToksCanon : List Tok :=
  [.Y, .ch '-', .m, .ch '-', .d, .ws, .H, .ch ':', .M, .ch ':', .S]

/-- datetime.strptime over one compiled format. -/
def strptime (toks : List Tok) (s : String) : Option DT :=
  (runToks toks s.data {}).bind toDatetime

/-- strftime of the canonical timestamp format. -/
def fmtCanon (dt : DT) : String :=
  ⟨pad4 dt.year ++ '-' :: pad2 dt.month ++ '-' :: pad2 dt.day ++
   ' ' :: pad2 dt.hour ++ ':' :: pad2 dt.minute ++ ':' :: pad2 dt.second⟩

/-- The for-loop over date_formats in reformat_datetime and extract_date:
first format whose strptime succeeds. -/
def tryFormats (s : String) : Option DT :=
  (strptime fmtToks1 s).orElse fun _ =>
  (strptime fmtToks2 s).orElse fun _ =>
  (strptime fmtToks3 s).orElse fun _ =>
  strptime fmtToks4 s

/-- reformat_datetime from the source: try the four literal formats in
order; on success zero the seconds and render canonically; on failure
return the input unchanged. -/
def reformat_datetime (s : String) : String :=
  match tryFormats s with
  | some dt => fmtCanon { dt with second := 0 }
  | none => s

/-- Does the character list start with the given pattern. -/
def listStartsWith : List Char → List Char → Bool
  | [], _ => true
  | _ :: _, [] => false
  | p :: ps, c :: cs => p = c && listStartsWith ps cs

/-- Python substring containment (the in operator) over character lists. -/
def listContainsSub (pat : List Char) : List Char → Bool
  | [] => listStartsWith pat []
  | c :: cs => listStartsWith pat (c :: cs) || listContainsSub pat cs

/-- Python substring containment on strings. -/
def containsSub (s pat : String) : Bool := listContainsSub pat.data s.data

/-- Replace every occurrence of the literal (UTC) with the empty string,
scanning left to right as str.replace does. -/
def dropUTC : List Char → List Char
  | '(' :: 'U' :: 'T' :: 'C' :: ')' :: cs => dropUTC cs
  | c :: cs => c :: dropUTC cs
  | [] => []

/-- Python str.strip over ASCII whitespace. -/
def pyStrip (l : List Char) : List Char :=
  ((l.dropWhile pyIsSpace).reverse.dropWhile pyIsSpace).reverse

/-- remove_utc from the source: drop a literal (UTC) marker and strip. -/
def remove_utc (s : String) : String :=
  if containsSub s "(UTC)" then ⟨pyStrip (dropUTC s.data)⟩ else s

/-- Year extraction used by save_file when grouping posts:
datetime.strptime(date, canonical format).year; none models the ValueError. -/
def canon_year (s : String) : Option Nat :=
  (strptime fmtToksCanon s).map (·.year)

/-- Python split on the two-character separator comma-space, scanning left
to right non-overlapping and keeping empty pieces. -/
def splitCommaSpace (cur : List Char) : List Char → List (List Char)
  | ',' :: ' ' :: cs => cur.reverse :: splitCommaSpace [] cs
  | c :: cs => splitCommaSpace (c :: cur) cs
  | [] => [cur.reverse]

/-- Python split on a single space, keeping empty pieces. -/
def splitSpace (cur : List Char) : List Char → List (List Char)
  | ' ' :: cs => cur.reverse :: splitSpace [] cs
  | c :: cs => splitSpace (c :: cur) cs
  | [] => [cur.reverse]

/-- clean_date from the source: split on a comma-space into date and time
parts, split the date part on a space into month and suffixed day, keep the
digits of the day and zero-pad a single digit, and reassemble.  The source's
tuple unpacking of split raises ValueError when a split does not yield
exactly two pieces; that escape is modeled as none. -/
def clean_date (s : String) : Option String :=
  match splitCommaSpace [] s.data with
  | [date_part, time_part] =>
    match splitSpace [] date_part with
    | [month, day_with_suffix] =>
      let day := day_with_suffix.filter Char.isDigit
      let day := if day.length = 1 then '0' :: day else day
      some ⟨month ++ ' ' :: day ++ ',' :: ' ' :: time_part⟩
    | _ => none
  | _ => none

/-! ## Data model of the scraper -/

/-- A comment dictionary as built by scrape_comments. -/
structure CommentData where
  id : String
  postId : String
  parentId : String
  author : String
  authorProfileLink : String
  date : String
  link : String
  text : String
deriving Repr, DecidableEq

/-- A post dictionary as built by scrape_post. -/
structure Post where
  title : String
  link : String
  date : String
  content : String
  comments : List CommentData
deriving Repr, DecidableEq

/-- A wp:comment element of a chunk document, field for field.  The source
attaches the element and its first seven subelements before re-parsing the
comment date; when that parse fails it skips only the remaining two
subelements, so date and content are optional. -/
structure CommentOut where
  approved : String
  parent : String
  id : String
  comment_post_id : String
  author : String
  email : String
  url : String
  date : Option String
  content : Option String
deriving Repr, DecidableEq

/-- An item element of a chunk document, field for field. -/
structure Item where
  title : String
  creator : String
  content : String
  excerpt : String
  post_id : String
  post_date : String
  post_parent : String
  menu_order : String
  status : String
  post_type : String
  comments : List CommentOut
deriving Repr, DecidableEq

/-- Mutable scraper attributes touched by the export path. -/
structure ScraperState where
  posts_data : List Post
  file_number : List (Nat × Nat)
  csv_rows : List (String × String × String)
deriving Repr, DecidableEq

/-- A chunk file: year and per-year sequence number that key its filename,
its serialized items, and whether the file write succeeded. -/
structure ChunkFile where
  year : Nat
  seq : Nat
  items : List Item
  written : Bool
deriving Repr, DecidableEq

/-- Everything one save_file call produces: the updated scraper state, the
chunk files in emission order, the rows appended to the two side-channel
ledgers, and whether the call re-raised an exception. -/
structure SaveResult where
  state : ScraperState
  chunk_files : List ChunkFile
  invalid_post_rows : List (String × String)
  invalid_comment_rows : List (String × String)
  raised : Bool
deriving Repr, DecidableEq

/-- Chunk filename, keyed by year and per-year sequence number. -/
def chunk_filename (year seq : Nat) : String :=
  "livejournal_export_" ++ toString year ++ "_" ++ toString seq ++ ".xml"

/-- Append a post to its year bucket, creating the bucket at the end on
first sight of the year: Python dict insertion-order semantics. -/
def insert_post (groups : List (Nat × List Post)) (y : Nat) (p : Post) : List (Nat × List Post) :=
  match groups with
  | [] => [(y, [p])]
  | (y', ps) :: rest =>
    if y' = y then (y', ps ++ [p]) :: rest else (y', ps) :: insert_post rest y p

/-- The first loop of save_file: group buffered posts by the year of their
canonical date, diverting a post whose date fails to parse to the
invalid-post ledger and excluding it from every bucket. -/
def group_go (gs : List (Nat × List Post)) (rows : List (String × String)) :
    List Post → List (Nat × List Post) × List (String × String)
  | [] => (gs, rows)
  | p :: rest =>
    match canon_year p.date with
    | none => group_go gs (rows ++ [(p.title, p.link)]) rest
    | some y => group_go (insert_post gs y p) rows rest

/-- Group the post buffer by year (see group_go). -/
def group_by_year (posts : List Post) : List (Nat × List Post) × List (String × String) :=
  group_go [] [] posts

/-- Fuel-driven worker for the batch split (the fuel only serves
termination; list length is always enough fuel). -/
def chunks50fuel : Nat → List Post → List (List Post)
  | 0, _ => []
  | _, [] => []
  | fuel + 1, p :: ps => ((p :: ps).take 50) :: chunks50fuel fuel ((p :: ps).drop 50)

/-- The list-slicing batch split of save_file: consecutive slices of 50. -/
def chunks50 (l : List Post) : List (List Post) := chunks50fuel l.length l

/-- Strict comment-date re-parse of save_file: strptime with the
month-abbreviation-with-period, no at format. -/
def strict_comment_date (s : String) : Option DT := strptime fmtToksStrict s

/-- Serialize one comment element: the first seven subelements come from
the scraped dictionary; date and content are present only when the strict
re-parse succeeded. -/
def mkCommentOut (c : CommentData) (d : Option DT) : CommentOut :=
  { approved := "1"
    parent := if c.parentId = "" then "0" else c.parentId
    id := c.id
    comment_post_id := c.postId
    author := c.author
    email := ""
    url := c.authorProfileLink
    date := d.map fun dt => fmtCanon { dt with second := 0 }
    content := d.map fun _ => c.text }

/-- The comment loop of save_file for one post: the comment element and its
first seven subelements are attached, then the stored date is cleaned
(ValueError there, modeled as the Bool flag, escapes the whole call) and
re-parsed strictly; a failed strict parse appends the owning post's title
and link to the invalid-comment ledger and leaves the element without its
date and content subelements. -/
def serialize_comments (p : Post) : List CommentData →
    List CommentOut × List (String × String) × Bool
  | [] => ([], [], false)
  | c :: rest =>
    match clean_date c.date with
    | none => ([], [], true)
    | some cleaned =>
      match strict_comment_date cleaned with
      | none =>
        let (outs, rows, crashed) := serialize_comments p rest
        (mkCommentOut c none :: outs, (p.title, p.link) :: rows, crashed)
      | some d =>
        let (outs, rows, crashed) := serialize_comments p rest
        (mkCommentOut c (some d) :: outs, rows, crashed)

/-- Serialize one item element of a chunk; fn is the current per-year file
number, which the source uses as wp:post_id for every post of the chunk. -/
def mkItem (p : Post) (fn : Nat) (comments : List CommentOut) : Item :=
  { title := p.title
    creator := "AVGS"
    content := p.content ++ "\n\n<a href='" ++ p.link ++ "'>Original Post</a>"
    excerpt := ""
    post_id := toString fn
    post_date := p.date
    post_parent := "0"
    menu_order := "0"
    status := "publish"
    post_type := "post"
    comments := comments }

/-- The item loop of save_file over one chunk: serialize each post in
arrival order; an escaped ValueError from clean_date aborts the chunk,
keeping the ledger rows appended before the crash. -/
def serialize_chunk (fn : Nat) : List Post → List Item × List (String × String) × Bool
  | [] => ([], [], false)
  | p :: rest =>
    let (outs, rows, crashed) := serialize_comments p p.comments
    if crashed then ([], rows, true)
    else
      let (items, rows2, crashed2) := serialize_chunk fn rest
      (mkItem p fn outs :: items, rows ++ rows2, crashed2)

/-- The chunk loop of save_file for one year: serialize each chunk, attempt
the file write (the writeOk oracle decides success; a failure is logged but
neither rolls back the sequence counter nor re-queues the batch), append the
index rows, and increment the per-year file number. A crash stops the loop
with the file number as already incremented. -/
def chunk_loop (year : Nat) (writeOk : Nat → Nat → Bool) :
    List (List Post) → Nat →
    List ChunkFile × List (String × String) × List (String × String × String) × Nat × Bool
  | [], fn => ([], [], [], fn, false)
  | chunk :: rest, fn =>
    let (items, rows, crashed) := serialize_chunk fn chunk
    if crashed then ([], rows, [], fn, true)
    else
      let file : ChunkFile := { year := year, seq := fn, items := items, written := writeOk year fn }
      let csv := chunk.map fun p => (p.title, p.date, chunk_filename year fn)
      let (files, rows2, csv2, fnEnd, crashed2) := chunk_loop year writeOk rest (fn + 1)
      (file :: files, rows ++ rows2, csv ++ csv2, fnEnd, crashed2)

/-- Store a value under a key in the insertion-ordered association list. -/
def assocSet (l : List (Nat × Nat)) (k v : Nat) : List (Nat × Nat) :=
  match l with
  | [] => [(k, v)]
  | (k', v') :: rest => if k' = k then (k, v) :: rest else (k', v') :: assocSet rest k v

/-- The per-year loop of save_file: initialize the year's file number to 1
on first sight, split the year's posts into chunks of 50, and run the chunk
loop; a crash stops all further years. -/
def year_loop (writeOk : Nat → Nat → Bool) :
    List (Nat × List Post) → List (Nat × Nat) →
    List ChunkFile × List (String × String) × List (String × String × String) × List (Nat × Nat) × Bool
  | [], fns => ([], [], [], fns, false)
  | (y, posts) :: rest, fns =>
    let fns1 := if (fns.lookup y).isSome then fns else fns ++ [(y, 1)]
    let fn0 := (fns1.lookup y).getD 1
    let (files, rows, csv, fnEnd, crashed) := chunk_loop y writeOk (chunks50 posts) fn0
    let fns2 := assocSet fns1 y fnEnd
    if crashed then (files, rows, csv, fns2, true)
    else
      let (files2, rows2, csv2, fns3, crashed2) := year_loop writeOk rest fns2
      (files ++ files2, rows ++ rows2, csv ++ csv2, fns3, crashed2)

/-- save_file from the source: group the buffer by year, emit the chunk
files, and clear the buffer unless an exception escaped (in which case it is
logged and re-raised, leaving the buffer and counters as mutated so far). -/
def save_file (writeOk : Nat → Nat → Bool) (st : ScraperState) : SaveResult :=
  let (groups, postRows) := group_by_year st.posts_data
  let (files, cRows, csv, fns, raised) := year_loop writeOk groups st.file_number
  { state :=
      { posts_data := if raised then st.posts_data else []
        file_number := fns
        csv_rows := st.csv_rows ++ csv }
    chunk_files := files
    invalid_post_rows := postRows
    invalid_comment_rows := cRows
    raised := raised }

/-! ## Comment-thread resolution (extract_thread_ids) and the scrape loop

Network fetches become `Except Unit page` oracles; a fetched page is
abstracted to exactly the structure the source queries (its anchor elements
in document order).
-/

/-- An anchor element: its visible text and its optional href attribute. -/
structure Anchor where
  text : String
  href : Option String
deriving Repr, DecidableEq

/-- re.search of the thread-id pattern on an href: the first position where
the literal thread= is followed by at least one digit wins, and the captured
group is the maximal digit run there. -/
def searchThreadId : List Char → Option String
  | [] => none
  | c :: cs =>
    if listStartsWith ['t','h','r','e','a','d','='] (c :: cs) then
      match (c :: cs).drop 7 with
      | d :: ds => if d.isDigit then some ⟨d :: ds.takeWhile Char.isDigit⟩ else searchThreadId cs
      | [] => none
    else searchThreadId cs

/-- One iteration of the anchor loop in extract_thread_ids: anchors whose
nonempty text contains the literal Parent are inspected; a missing href then
makes re.search raise TypeError (outer none), otherwise the optional match
is returned (inner option). -/
def anchorStep (a : Anchor) : Option (Option String) :=
  if a.text ≠ "" ∧ containsSub a.text "Parent" then
    match a.href with
    | none => none
    | some h => some (searchThreadId h.data)
  else some none

/-- The anchor loop of extract_thread_ids: collect every matched thread id
in document order; a raised TypeError anywhere discards everything. -/
def collectThreadIds : List Anchor → Option (List String)
  | [] => some []
  | a :: rest =>
    match anchorStep a with
    | none => none
    | some none => collectThreadIds rest
    | some (some t) => (collectThreadIds rest).map (t :: ·)

/-- extract_thread_ids from the source: fetch the page (the Except oracle
result), scan its anchors, and return the empty list on any fetch or parse
failure. -/
def extract_thread_ids (page : Except Unit (List Anchor)) : List String :=
  match page with
  | .error _ => []
  | .ok links => (collectThreadIds links).getD []

/-- The parent-id logic of scrape_comments: when the comment section holds
an anchor whose href mentions a thread id, fetch that href and take the
first extracted thread id, else the parent id is empty. -/
def resolve_parent (fetchPage : String → Except Unit (List Anchor))
    (threadHref : Option String) : String :=
  match threadHref with
  | none => ""
  | some url =>
    match extract_thread_ids (fetchPage url) with
    | [] => ""
    | t :: _ => t

/-- Python repr of the year-to-file-number dict, in insertion order. -/
def pyDictRepr (d : List (Nat × Nat)) : String :=
  "\x7b" ++ String.intercalate ", " (d.map fun kv => toString kv.1 ++ ": " ++ toString kv.2) ++ "\x7d"

/-- The datetime abbr element of a comment section: optional title
attribute and stripped text. -/
structure DtElem where
  titleAttr : Option String
  text : String
deriving Repr, DecidableEq

/-- One comment-inner fragment, abstracted to the pieces scrape_comments
queries: author span text, profile-anchor href inside that span, datetime
element, permalink href, body markup, and the href of the first anchor in
the section whose href mentions a thread id. -/
structure CommentSection where
  authorText : Option String
  profileHref : Option String
  dtElem : Option DtElem
  permalinkHref : Option String
  bodyHtml : Option String
  threadHref : Option String
deriving Repr, DecidableEq

/-- Mutable scraper attributes read by the comment scrape: the fallback
comment-id counter and the year-to-file-number dict. -/
structure ScrapeState where
  comment_id : Nat
  file_number : List (Nat × Nat)
deriving Repr, DecidableEq

/-- scrape_comments from the source, one comment section at a time:
sentinel defaults for missing fields, the date normalized through
remove_utc and reformat_datetime, the comment id resolved remotely with the
local counter as fallback, the parent id resolved via extract_thread_ids,
and the Post ID field set to the repr of the whole file-number dict. -/
def scrape_comments (ljcmtIds : String → List String)
    (fetchPage : String → Except Unit (List Anchor)) (st : ScrapeState) :
    List CommentSection → List CommentData × ScrapeState
  | [] => ([], st)
  | sec :: rest =>
    let author := sec.authorText.getD "Unknown Author"
    let profile :=
      match sec.authorText, sec.profileHref with
      | some _, some h => h
      | _, _ => "No Profile Link"
    let date0 :=
      match sec.dtElem with
      | none => "NO DATE"
      | some e => match e.titleAttr with
        | some t => t
        | none => e.text
    let date := reformat_datetime (remove_utc date0)
    let clink := sec.permalinkHref.getD "No Link"
    let ctext := sec.bodyHtml.getD "No Comment"
    let cid :=
      match ljcmtIds clink with
      | [] => toString st.comment_id
      | i :: _ => i
    let pid := resolve_parent fetchPage sec.threadHref
    let c : CommentData :=
      { id := cid
        postId := pyDictRepr st.file_number
        parentId := pid
        author := author
        authorProfileLink := profile
        date := date
        link := clink
        text := ctext }
    let (cs, st') := scrape_comments ljcmtIds fetchPage
      { st with comment_id := st.comment_id + 1 } rest
    (c :: cs, st')

/-! ## Post extraction (scrape_post) and the page result set -/

/-- A post header fragment: optional title element text and the first
anchor inside the header. -/
structure Header where
  titleText : Option String
  firstAnchor : Option Anchor
deriving Repr, DecidableEq

/-- One asset-content fragment together with the nearest preceding header
fragment the find_previous lookup would find, if any. -/
structure Fragment where
  header : Option Header
  contentHtml : String
deriving Repr, DecidableEq

/-- scrape_post from the source: fail (None) when no preceding header
fragment exists; otherwise extract title and link with their sentinels
(a header anchor without an href raises KeyError, caught into None),
fetch the post date and the comments through the given oracles. -/
def scrape_post (dateOf : String → String) (commentsOf : String → List CommentData)
    (frag : Fragment) : Option Post :=
  match frag.header with
  | none => none
  | some h =>
    let title := h.titleText.getD "No Title"
    let link? :=
      match h.firstAnchor with
      | none => some "No Link"
      | some a => a.href
    match link? with
    | none => none
    | some link =>
      some
        { title := title
          link := link
          date := dateOf link
          content := frag.contentHtml
          comments := commentsOf link }

/-- The result-collection portion of scrape_livejournal_page: each fragment
is extracted (concurrently in the source; completion order only permutes
the buffer) and only successful extractions enter the page's result set; a
fragment whose extraction fails or raises is caught, logged and excluded. -/
def page_results (dateOf : String → String) (commentsOf : String → List CommentData)
    (frags : List Fragment) : List Post :=
  frags.filterMap (scrape_post dateOf commentsOf)

/-! ## Canonical-output shape -/

/-- Shape of the canonical timestamp rendering: four digits, dash, two
digits, dash, two digits, space, two digits, colon, two digits, colon, and
a zeroed seconds field. -/
def isCanonShape (s : String) : Bool :=
  match s.data with
  | [y1, y2, y3, y4, '-', m1, m2, '-', d1, d2, ' ', h1, h2, ':', n1, n2, ':', '0', '0'] =>
    y1.isDigit && y2.isDigit && y3.isDigit && y4.isDigit && m1.isDigit && m2.isDigit &&
    d1.isDigit && d2.isDigit && h1.isDigit && h2.isDigit && n1.isDigit && n2.isDigit
  | _ => false

/-! ## Concrete inputs used by counterexamples and witnesses -/

/-- A comment dictionary whose date was already normalized to the canonical
form at scrape time. -/
def normalizedComment : CommentData :=
  { id := "7", postId := "\x7b\x7d", parentId := "", author := "A",
    authorProfileLink := "P", date := "2020-01-02 03:04:00", link := "CL", text := "hi" }

/-- A comment whose stored date survives clean_date but fails the stricter
export-time re-parse (the literal at is not part of the strict format). -/
def strictFailComment : CommentData :=
  { normalizedComment with id := "9", date := "Apr. 5, 2020 at 3:04 PM" }

/-- A comment whose stored date passes the stricter export-time re-parse. -/
def strictOkComment : CommentData :=
  { normalizedComment with id := "8", date := "Apr. 5, 2020 3:04 PM" }

/-- A post of year 2020 with a given title and comments. -/
def post2020 (t : String) (cs : List CommentData) : Post :=
  { title := t, link := "L-" ++ t, date := "2020-01-02 03:04:00", content := "body",
    comments := cs }

/-- A post whose date string is not a canonical timestamp. -/
def badDatePost : Post := { post2020 "bad" [] with date := "NO DATE" }

/-- Fifty-one posts of year 2020 where the first carries a comment whose
date is already canonical. -/
def buffer51 : List Post :=
  post2020 "crash" [normalizedComment] :: (List.range 50).map fun i => post2020 (toString i) []

/-- The file-write oracle under which every chunk write succeeds. -/
def wOk : Nat → Nat → Bool := fun _ _ => true

/-- The crawl-and-flush loop of the driver: each crawled page appends its
batch of extracted posts to the buffer and save_file flushes it; a raised
flush stops the crawl (get_all_pages catches the exception and breaks). -/
def run (w : Nat → Nat → Bool) : List (List Post) → ScraperState → ScraperState × List ChunkFile
  | [], st => (st, [])
  | b :: rest, st =>
    let r := save_file w { st with posts_data := st.posts_data ++ b }
    if r.raised then (r.state, r.chunk_files)
    else
      let (stEnd, files) := run w rest r.state
      (stEnd, r.chunk_files ++ files)

/-- Total number of chunks the batches of a run should produce. -/
def totalChunks (batches : List (List Post)) : Nat :=
  (batches.map fun b => (b.length + 49) / 50).sum

/-- An anchor that yields nothing in the Parent scan (its text does not
mention Parent). -/
def plainAnchor : Anchor := ⟨"other", none⟩

/-- A Parent anchor whose href carries thread 55. -/
def parentAnchor55 : Anchor := ⟨"Parent", some "x?thread=55&y"⟩

/-- A Parent anchor whose href carries thread 66. -/
def parentAnchor66 : Anchor := ⟨"Parent", some "t?thread=66"⟩

/-- A parent-page fetch oracle returning two Parent anchors after a plain
one. -/
def fpTwoParents : String → Except Unit (List Anchor) :=
  fun _ => .ok [plainAnchor, parentAnchor55, parentAnchor66]

/-- A comment-id oracle that always fails to resolve. -/
def ljNone : String → List String := fun _ => []

/-- A concrete comment-inner section with every queried piece present. -/
def sampleSection : CommentSection :=
  { authorText := some "A", profileHref := some "PH",
    dtElem := some ⟨some "Apr. 5, 2020 at 3:04 PM", "x"⟩,
    permalinkHref := some "PL", bodyHtml := some "B", threadHref := some "TH" }

/-- A post fragment with no preceding header. -/
def headerlessFragment : Fragment := { header := none, contentHtml := "H" }

/-- A post fragment with a complete preceding header. -/
def headeredFragment : Fragment :=
  { header := some { titleText := some "T", firstAnchor := some ⟨"T", some "PL"⟩ },
    contentHtml := "C" }

end LJ

namespace LJ

/-! ## Lemmas about digit characters -/

theorem digitChar_mem (k : Nat) : digitChar k ∈ dchars :=
  List.get_mem dchars _ _

theorem dchars_all {P : Char → Prop} (h : ∀ c ∈ dchars, P c) (k : Nat) : P (digitChar k) :=
  h _ (digitChar_mem k)

theorem digitChar_isDigit (k : Nat) : (digitChar k).isDigit = true :=
  dchars_all (P := fun c => c.isDigit = true) (by decide) k

theorem digitChar_not_space (k : Nat) : pyIsSpace (digitChar k) = false :=
  dchars_all (P := fun c => pyIsSpace c = false) (by decide) k

theorem digitChar_lower (k : Nat) : lowerAscii (digitChar k) = digitChar k :=
  dchars_all (P := fun c => lowerAscii c = c) (by decide) k

theorem digitChar_toNat_le (k : Nat) : (digitChar k).toNat ≤ 57 :=
  dchars_all (P := fun c => c.toNat ≤ 57) (by decide) k

theorem digitChar_toNat_ge (k : Nat) : 48 ≤ (digitChar k).toNat :=
  dchars_all (P := fun c => 48 ≤ c.toNat) (by decide) k

theorem digitChar_ne_of_lt {c : Char} (h : c.toNat < 48) (k : Nat) : digitChar k ≠ c := by
  intro he
  have := digitChar_toNat_ge k
  rw [he] at this
  omega

theorem digitChar_ne_of_gt {c : Char} (h : 57 < c.toNat) (k : Nat) : digitChar k ≠ c := by
  intro he
  have := digitChar_toNat_le k
  rw [he] at this
  omega

/-! ## The canonical rendering parses under none of the four formats -/

theorem stripCI_digit_none {c : Char} {n : List Char} (hn : 97 ≤ c.toNat) (k : Nat)
    (cs : List Char) : stripCI (c :: n) (digitChar k :: cs) = none := by
  have hne : lowerAscii (digitChar k) ≠ c := by
    rw [digitChar_lower]
    exact digitChar_ne_of_gt (by omega) k
  simp [stripCI, hne]

theorem matchMonth_digit_none {names : List (List Char × Nat)}
    (h : ∀ nv ∈ names, nv.1 ≠ [] ∧ 97 ≤ (nv.1.headD ' ').toNat) (k : Nat) (cs : List Char) :
    matchMonth names (digitChar k :: cs) = none := by
  induction names with
  | nil => rfl
  | cons nv rest ih =>
    obtain ⟨hne, hc⟩ := h nv (by simp)
    have hrest : matchMonth rest (digitChar k :: cs) = none := ih fun x hx => h x (by simp [hx])
    obtain ⟨c, n, he⟩ : ∃ c n, nv.1 = c :: n := by
      cases hx : nv.1 with
      | nil => exact absurd hx hne
      | cons c n => exact ⟨c, n, rfl⟩
    rw [he] at hc
    simp only [List.headD_cons] at hc
    simp only [matchMonth, List.findSome?] at hrest ⊢
    rw [he, stripCI_digit_none hc]
    simpa [matchMonth] using hrest

theorem runToks_ws_nonspace_none {c : Char} (hc : pyIsSpace c = false) (ts : List Tok)
    (cs : List Char) (st : Raw) : runToks (.ws :: ts) (c :: cs) st = none := by
  simp [runToks, hc]

theorem runToks_b_digit_none (ts : List Tok) (k : Nat) (cs : List Char) (st : Raw) :
    runToks (.b :: ts) (digitChar k :: cs) st = none := by
  have h : matchMonth monthAbbrevs (digitChar k :: cs) = none :=
    matchMonth_digit_none (by decide) k cs
  simp [runToks, h]

theorem runToks_B_digit_none (ts : List Tok) (k : Nat) (cs : List Char) (st : Raw) :
    runToks (.B :: ts) (digitChar k :: cs) st = none := by
  have h : matchMonth monthFulls (digitChar k :: cs) = none :=
    matchMonth_digit_none (by decide) k cs
  simp [runToks, h]

theorem runToks_d_ws_digits_none (ts : List Tok) (k1 k2 k3 : Nat) (cs : List Char) (st : Raw) :
    runToks (.d :: .ws :: ts) (digitChar k1 :: digitChar k2 :: digitChar k3 :: cs) st = none := by
  simp only [runToks]
  split_ifs <;> simp_all [Option.orElse, digitChar_not_space]

theorem digitChar_lower_ne_slash (k : Nat) : ¬ lowerAscii (digitChar k) = lowerAscii '/' := by
  rw [digitChar_lower, show lowerAscii '/' = '/' from by decide]
  exact digitChar_ne_of_lt (by decide) k

theorem runToks_m_slash_digits_none (ts : List Tok) (k1 k2 k3 : Nat) (cs : List Char) (st : Raw) :
    runToks (.m :: .ch '/' :: ts) (digitChar k1 :: digitChar k2 :: digitChar k3 :: cs) st = none := by
  simp only [runToks]
  split_ifs <;> simp_all [Option.orElse, digitChar_lower_ne_slash]

theorem fmtCanon_data (dt : DT) :
    (fmtCanon dt).data =
      digitChar (dt.year / 1000) :: digitChar (dt.year / 100) :: digitChar (dt.year / 10) ::
      digitChar dt.year :: '-' :: digitChar (dt.month / 10) :: digitChar dt.month :: '-' ::
      digitChar (dt.day / 10) :: digitChar dt.day :: ' ' :: digitChar (dt.hour / 10) ::
      digitChar dt.hour :: ':' :: digitChar (dt.minute / 10) :: digitChar dt.minute :: ':' ::
      digitChar (dt.second / 10) :: digitChar dt.second :: [] := by
  simp [fmtCanon, pad4, pad2]

theorem tryFormats_canon_none (dt : DT) : tryFormats (fmtCanon dt) = none := by
  have h1 : strptime fmtToks1 (fmtCanon dt) = none := by
    rw [strptime, fmtCanon_data, fmtToks1, runToks_b_digit_none]
    rfl
  have h2 : strptime fmtToks2 (fmtCanon dt) = none := by
    rw [strptime, fmtCanon_data, fmtToks2, runToks_B_digit_none]
    rfl
  have h3 : strptime fmtToks3 (fmtCanon dt) = none := by
    rw [strptime, fmtCanon_data, fmtToks3, runToks_d_ws_digits_none]
    rfl
  have h4 : strptime fmtToks4 (fmtCanon dt) = none := by
    rw [strptime, fmtCanon_data, fmtToks4, runToks_m_slash_digits_none]
    rfl
  simp [tryFormats, h1, h2, h3, h4, Option.orElse]

theorem isCanonShape_fmtCanon (dt : DT) : isCanonShape (fmtCanon { dt with second := 0 }) = true := by
  rw [isCanonShape, fmtCanon_data]
  simp only [show (0 : Nat) / 10 = 0 from rfl]
  rw [show digitChar 0 = '0' from rfl]
  simp [digitChar_isDigit]


/-! ## Claims C4 and C5: the date normalizer -/

/-- Claim C4: for every input string the date normalizer never raises (it is
a total function); on parse success against its supported literal formats it
returns the canonical YYYY-MM-DD HH:MM:SS form with seconds and sub-second
components zeroed, and for every unparseable input it returns the input
unchanged. -/
theorem reformat_never_raises_canonical_or_identity (s : String) :
    (tryFormats s = none ∧ reformat_datetime s = s) ∨
    (∃ dt, tryFormats s = some dt ∧ reformat_datetime s = fmtCanon { dt with second := 0 } ∧
      isCanonShape (reformat_datetime s) = true) := by
  cases h : tryFormats s with
  | none => exact .inl ⟨rfl, by simp [reformat_datetime, h]⟩
  | some dt =>
    refine .inr ⟨dt, rfl, by simp [reformat_datetime, h], ?_⟩
    simp only [reformat_datetime, h]
    exact isCanonShape_fmtCanon dt

/-- Claim C5: the date normalizer is idempotent on every string in a
supported literal date format, because its canonical output matches none of
the four literal formats and therefore passes through unchanged. -/
theorem reformat_idempotent_on_supported_formats (x : String) (dt : DT)
    (h : tryFormats x = some dt) :
    reformat_datetime (reformat_datetime x) = reformat_datetime x := by
  have h1 : reformat_datetime x = fmtCanon { dt with second := 0 } := by
    simp [reformat_datetime, h]
  rw [h1, reformat_datetime, tryFormats_canon_none]

/-- Witness for claim C5 at a concrete supported-format input. -/
theorem reformat_idempotent_witness :
    tryFormats "Apr. 5, 2020 at 3:04 PM" = some ⟨2020, 4, 5, 15, 4, 0⟩ ∧
    reformat_datetime (reformat_datetime "Apr. 5, 2020 at 3:04 PM") =
      reformat_datetime "Apr. 5, 2020 at 3:04 PM" :=
  ⟨by decide, reformat_idempotent_on_supported_formats _ ⟨2020, 4, 5, 15, 4, 0⟩ (by decide)⟩


/-! ## Claim C1: the flush raises on normalized comment dates -/

/-- Claim C1 (code bug): flushing a buffered post that carries a comment
whose date was already normalized to canonical YYYY-MM-DD HH:MM:SS form
makes clean_date raise ValueError before the guarded strict re-parse, so
save_file re-raises instead of diverting to the side-channel ledger: the
flush raises, no chunk is emitted and the comment-date ledger stays empty,
while the spec requires a diversion and a continuing run. -/
theorem clean_date_crash_escapes_flush :
    clean_date "2020-01-02 03:04:00" = none ∧
    (save_file wOk ⟨[post2020 "a" [normalizedComment]], [], []⟩).raised = true ∧
    (save_file wOk ⟨[post2020 "a" [normalizedComment]], [], []⟩).invalid_comment_rows = [] ∧
    (save_file wOk ⟨[post2020 "a" [normalizedComment]], [], []⟩).chunk_files = [] := by
  refine ⟨by decide, by decide, by decide, by decide⟩

/-! ## Claim C2: strict re-parse failure -/

/-- Counterexample to claim C2 as stated: the wp:comment element of the
strict-parse-failing comment (id 9) is not skipped from the chunk output;
it stays in the emitted chunk with its seven leading subelements, only its
date and content are absent, while the owning post is appended to the
comment-date ledger and also remains in the chunk. -/
theorem strict_failure_partial_element_in_chunk :
    (save_file wOk ⟨[post2020 "z" [strictFailComment, strictOkComment]], [], []⟩).chunk_files.map
        (fun f => f.items.map fun it => it.comments.map fun c => (c.id, c.date.isSome, c.content.isSome)) =
      [[[("9", false, false), ("8", true, true)]]] ∧
    (save_file wOk ⟨[post2020 "z" [strictFailComment, strictOkComment]], [], []⟩).invalid_comment_rows =
      [("z", "L-z")] := by
  refine ⟨by decide, by decide⟩

/-- Claim C2 (amended): for every comment whose stricter export-time
re-parse fails, serialization emits its element without the date and
content subelements (the element itself stays in place in the chunk), and
the owning post's title and link are appended exactly once to the
comment-date side-channel ledger, regardless of the post's own date. -/
theorem strict_failure_element_and_ledger (p : Post) (pre rest : List CommentData)
    (c : CommentData) (cd : String)
    (hpre : ∀ x ∈ pre, (clean_date x.date).isSome = true)
    (hc : clean_date c.date = some cd) (hf : strict_comment_date cd = none) :
    serialize_comments p (pre ++ c :: rest) =
      ((serialize_comments p pre).1 ++ mkCommentOut c none :: (serialize_comments p rest).1,
       (serialize_comments p pre).2.1 ++ (p.title, p.link) :: (serialize_comments p rest).2.1,
       (serialize_comments p rest).2.2) ∧
    (mkCommentOut c none).date = none ∧ (mkCommentOut c none).content = none := by
  refine ⟨?_, rfl, rfl⟩
  induction pre with
  | nil => simp [serialize_comments, hc, hf]
  | cons x pre ih =>
    have hx := hpre x (by simp)
    obtain ⟨cdx, hcdx⟩ := Option.isSome_iff_exists.mp hx
    have ih2 := ih fun x hx2 => hpre x (by simp [hx2])
    cases hsf : strict_comment_date cdx <;>
      simp [serialize_comments, hcdx, hsf, ih2]

/-- Witness for the amended claim C2 at a concrete failing comment. -/
theorem strict_failure_element_and_ledger_witness :
    serialize_comments (post2020 "z" []) ([] ++ strictFailComment :: []) =
      ((serialize_comments (post2020 "z" []) []).1 ++
        mkCommentOut strictFailComment none :: (serialize_comments (post2020 "z" []) []).1,
       (serialize_comments (post2020 "z" []) []).2.1 ++
        ("z", "L-z") :: (serialize_comments (post2020 "z" []) []).2.1,
       (serialize_comments (post2020 "z" []) []).2.2) ∧
    (mkCommentOut strictFailComment none).date = none ∧
    (mkCommentOut strictFailComment none).content = none :=
  strict_failure_element_and_ledger (post2020 "z" []) [] [] strictFailComment
    "Apr. 05, 2020 at 3:04 PM" (by decide) (by decide) (by decide)


/-! ## Membership lemmas through the export pipeline -/

theorem insert_post_mem {gs : List (Nat × List Post)} {y : Nat} {p q : Post}
    {yps : Nat × List Post} (h : yps ∈ insert_post gs y p) (hq : q ∈ yps.2) :
    (∃ yps' ∈ gs, q ∈ yps'.2) ∨ q = p := by
  induction gs generalizing yps with
  | nil =>
    simp [insert_post] at h
    subst h
    exact .inr (by simpa using hq)
  | cons hd tl ih =>
    obtain ⟨y', ps⟩ := hd
    simp only [insert_post] at h
    by_cases hy : y' = y
    · rw [if_pos hy] at h
      rcases List.mem_cons.mp h with h1 | h1
      · subst h1
        simp only [List.mem_append, List.mem_singleton] at hq
        rcases hq with hq | hq
        · exact .inl ⟨(y', ps), by simp, hq⟩
        · exact .inr hq
      · exact .inl ⟨yps, by simp [h1], hq⟩
    · rw [if_neg hy] at h
      rcases List.mem_cons.mp h with h1 | h1
      · subst h1
        exact .inl ⟨(y', ps), by simp, hq⟩
      · rcases ih h1 hq with ⟨yps', h2, h3⟩ | h2
        · exact .inl ⟨yps', by simp [h2], h3⟩
        · exact .inr h2

theorem group_go_mem {posts : List Post} {gs : List (Nat × List Post)}
    {rows : List (String × String)} {q : Post} {yps : Nat × List Post}
    (h : yps ∈ (group_go gs rows posts).1) (hq : q ∈ yps.2) :
    (∃ yps' ∈ gs, q ∈ yps'.2) ∨ (q ∈ posts ∧ (canon_year q.date).isSome = true) := by
  induction posts generalizing gs rows with
  | nil => exact .inl ⟨yps, by simpa [group_go] using h, hq⟩
  | cons p rest ih =>
    cases hy : canon_year p.date with
    | none =>
      simp only [group_go, hy] at h
      rcases ih h with h1 | ⟨h1, h2⟩
      · exact .inl h1
      · exact .inr ⟨by simp [h1], h2⟩
    | some y =>
      simp only [group_go, hy] at h
      rcases ih h with ⟨yps2, hy1, hy2⟩ | ⟨h1, h2⟩
      · rcases insert_post_mem hy1 hy2 with h2 | h2
        · exact .inl h2
        · exact .inr ⟨by simp [h2], by simp [h2, hy]⟩
      · exact .inr ⟨by simp [h1], h2⟩

theorem group_go_rows (posts : List Post) (gs : List (Nat × List Post))
    (rows : List (String × String)) :
    (group_go gs rows posts).2 =
      rows ++ (posts.filter fun q => (canon_year q.date).isNone).map fun q => (q.title, q.link) := by
  induction posts generalizing gs rows with
  | nil => simp [group_go]
  | cons p rest ih =>
    cases hy : canon_year p.date with
    | none => simp [group_go, hy, ih]
    | some y => simp [group_go, hy, ih]

theorem serialize_chunk_items_mem {fn : Nat} {l : List Post} {it : Item}
    (h : it ∈ (serialize_chunk fn l).1) :
    ∃ q ∈ l, it = mkItem q fn (serialize_comments q q.comments).1 := by
  induction l with
  | nil => simp [serialize_chunk] at h
  | cons p rest ih =>
    simp only [serialize_chunk] at h
    by_cases hcr : (serialize_comments p p.comments).2.2 = true
    · simp [hcr] at h
    · simp only [Bool.not_eq_true] at hcr
      rw [hcr] at h
      simp only [Bool.false_eq_true, if_false] at h
      rcases List.mem_cons.mp h with h1 | h1
      · exact ⟨p, by simp, h1⟩
      · obtain ⟨q, hq1, hq2⟩ := ih h1
        exact ⟨q, by simp [hq1], hq2⟩

theorem chunk_loop_files_mem {y : Nat} {w : Nat → Nat → Bool} {chunks : List (List Post)}
    {fn : Nat} {f : ChunkFile} (h : f ∈ (chunk_loop y w chunks fn).1) :
    f.year = y ∧ ∃ ch ∈ chunks, f.items = (serialize_chunk f.seq ch).1 := by
  induction chunks generalizing fn with
  | nil => simp [chunk_loop] at h
  | cons ch rest ih =>
    simp only [chunk_loop] at h
    by_cases hcr : (serialize_chunk fn ch).2.2 = true
    · simp [hcr] at h
    · simp only [Bool.not_eq_true] at hcr
      rw [hcr] at h
      simp only [Bool.false_eq_true, if_false] at h
      rcases List.mem_cons.mp h with h1 | h1
      · subst h1
        exact ⟨rfl, ch, by simp, rfl⟩
      · obtain ⟨hy, ch', h2, h3⟩ := ih h1
        exact ⟨hy, ch', by simp [h2], h3⟩

theorem chunks50fuel_mem {fuel : Nat} {l ch : List Post} {q : Post}
    (h : ch ∈ chunks50fuel fuel l) (hq : q ∈ ch) : q ∈ l := by
  induction fuel generalizing l with
  | zero => simp [chunks50fuel] at h
  | succ fuel ih =>
    cases l with
    | nil => simp [chunks50fuel] at h
    | cons p ps =>
      rcases List.mem_cons.mp h with h1 | h1
      · subst h1
        exact List.take_subset _ _ hq
      · exact List.drop_subset _ _ (ih h1)

theorem chunks50_mem {l ch : List Post} {q : Post} (h : ch ∈ chunks50 l) (hq : q ∈ ch) :
    q ∈ l := chunks50fuel_mem h hq

theorem year_loop_items_mem {w : Nat → Nat → Bool} {groups : List (Nat × List Post)}
    {fns : List (Nat × Nat)} {f : ChunkFile} {it : Item}
    (hf : f ∈ (year_loop w groups fns).1) (hit : it ∈ f.items) :
    ∃ q, (∃ yps ∈ groups, q ∈ yps.2) ∧
      it = mkItem q f.seq (serialize_comments q q.comments).1 := by
  induction groups generalizing fns with
  | nil => simp [year_loop] at hf
  | cons yps rest ih =>
    rcases yps with ⟨y, posts⟩
    simp only [year_loop] at hf
    set fns1 := if ((fns.lookup y).isSome) then fns else fns ++ [(y, 1)] with hfns1
    by_cases hcr : (chunk_loop y w (chunks50 posts) ((fns1.lookup y).getD 1)).2.2.2.2 = true
    · rw [if_pos hcr] at hf
      simp only [SaveResult] at hf
      have h2 := chunk_loop_files_mem hf
      obtain ⟨hy, ch, hch, hitems⟩ := h2
      rw [hitems] at hit
      obtain ⟨q, hq1, hq2⟩ := serialize_chunk_items_mem hit
      exact ⟨q, ⟨(y, posts), by simp, chunks50_mem hch hq1⟩, hq2⟩
    · simp only [Bool.not_eq_true] at hcr
      rw [hcr] at hf
      simp only [Bool.false_eq_true, if_false, List.mem_append] at hf
      rcases hf with hf | hf
      · have h2 := chunk_loop_files_mem hf
        obtain ⟨hy, ch, hch, hitems⟩ := h2
        rw [hitems] at hit
        obtain ⟨q, hq1, hq2⟩ := serialize_chunk_items_mem hit
        exact ⟨q, ⟨(y, posts), by simp, chunks50_mem hch hq1⟩, hq2⟩
      · obtain ⟨q, ⟨yps', h1, h2⟩, h3⟩ := ih hf
        exact ⟨q, ⟨yps', by simp [h1], h2⟩, h3⟩

theorem save_file_items_mem {w : Nat → Nat → Bool} {st : ScraperState} {f : ChunkFile}
    {it : Item} (hf : f ∈ (save_file w st).chunk_files) (hit : it ∈ f.items) :
    ∃ q, q ∈ st.posts_data ∧ (canon_year q.date).isSome = true ∧
      it = mkItem q f.seq (serialize_comments q q.comments).1 := by
  obtain ⟨q, hq1, hq2⟩ := year_loop_items_mem hf hit
  obtain ⟨yps, h1, h2⟩ := hq1
  rcases group_go_mem h1 h2 with ⟨yps', h3, _⟩ | ⟨h3, h4⟩
  · simp at h3
  · exact ⟨q, h3, h4, hq2⟩


/-! ## Claim C6: diversion of posts with unparseable dates -/

/-- Claim C6: a buffered post whose date fails the canonical parse at flush
time contributes exactly one row per such buffered post to the post-date
diversion ledger (in particular its own title and link appear), every item
of every emitted chunk comes from a post whose date does parse (so the
diverted post is excluded from every chunk), and on a non-raising flush the
buffer is cleared so nothing is retried. -/
theorem bad_date_post_diverted_once_excluded (w : Nat → Nat → Bool) (st : ScraperState)
    (p : Post) (hp : p ∈ st.posts_data) (hbad : canon_year p.date = none) :
    ((p.title, p.link) ∈ (save_file w st).invalid_post_rows) ∧
    ((save_file w st).invalid_post_rows =
      (st.posts_data.filter fun q => (canon_year q.date).isNone).map fun q => (q.title, q.link)) ∧
    (∀ f ∈ (save_file w st).chunk_files, ∀ it ∈ f.items,
      (canon_year it.post_date).isSome = true) ∧
    ((save_file w st).raised = false → (save_file w st).state.posts_data = []) := by
  have hrows : (save_file w st).invalid_post_rows =
      (st.posts_data.filter fun q => (canon_year q.date).isNone).map fun q => (q.title, q.link) := by
    show (group_by_year st.posts_data).2 = _
    rw [group_by_year, group_go_rows]
    simp
  refine ⟨?_, hrows, ?_, ?_⟩
  · rw [hrows]
    exact List.mem_map_of_mem _ (List.mem_filter.mpr ⟨hp, by simp [hbad]⟩)
  · intro f hf it hit
    obtain ⟨q, _, hqd, hqi⟩ := save_file_items_mem hf hit
    rw [hqi]
    exact hqd
  · intro hr
    show (if (year_loop w (group_by_year st.posts_data).1 st.file_number).2.2.2.2 then _ else []) = []
    have : (year_loop w (group_by_year st.posts_data).1 st.file_number).2.2.2.2 = false := hr
    rw [this]
    simp

/-- Witness for claim C6 at a concrete buffer holding one unparseable-date
post and one valid post. -/
theorem bad_date_post_diverted_witness :
    ((badDatePost.title, badDatePost.link) ∈
      (save_file wOk ⟨[badDatePost, post2020 "g" []], [], []⟩).invalid_post_rows) ∧
    ((save_file wOk ⟨[badDatePost, post2020 "g" []], [], []⟩).invalid_post_rows =
      (([badDatePost, post2020 "g" []].filter fun q => (canon_year q.date).isNone).map
        fun q => (q.title, q.link))) ∧
    (∀ f ∈ (save_file wOk ⟨[badDatePost, post2020 "g" []], [], []⟩).chunk_files,
      ∀ it ∈ f.items, (canon_year it.post_date).isSome = true) ∧
    ((save_file wOk ⟨[badDatePost, post2020 "g" []], [], []⟩).raised = false →
      (save_file wOk ⟨[badDatePost, post2020 "g" []], [], []⟩).state.posts_data = []) :=
  bad_date_post_diverted_once_excluded wOk ⟨[badDatePost, post2020 "g" []], [], []⟩
    badDatePost (by decide) (by decide)

/-! ## Claim C7: item fields and the shared per-chunk post id -/

/-- Counterexample to claim C7 as stated: two successive posts of the same
year serialized into one chunk carry the same wp:post_id, the chunk's
per-year sequence number, not distinct consecutive identifiers. -/
theorem post_id_shared_within_chunk :
    (save_file wOk ⟨[post2020 "a" [], post2020 "b" []], [], []⟩).chunk_files.map
      (fun f => f.items.map fun it => it.post_id) = [["1", "1"]] ∧
    ¬ (["1", "1"] : List String).Pairwise (fun a b => a ≠ b) := by
  refine ⟨by decide, by decide⟩

/-- Claim C7 (amended): every item of every emitted chunk carries the
chunk's per-year sequence number as its numeric post identifier (so all
posts of one chunk share it), the fixed author attribution constant, the
body with the appended backlink to the source permalink, empty excerpt,
zero parent, zero menu order, status publish and type post. -/
theorem item_fields_and_chunk_post_id (w : Nat → Nat → Bool) (st : ScraperState)
    (f : ChunkFile) (hf : f ∈ (save_file w st).chunk_files) (it : Item) (hit : it ∈ f.items) :
    it.post_id = toString f.seq ∧ it.creator = "AVGS" ∧ it.excerpt = "" ∧
    it.post_parent = "0" ∧ it.menu_order = "0" ∧ it.status = "publish" ∧
    it.post_type = "post" ∧
    ∃ q ∈ st.posts_data, it.title = q.title ∧ it.post_date = q.date ∧
      it.content = q.content ++ "\n\n<a href='" ++ q.link ++ "'>Original Post</a>" := by
  obtain ⟨q, hq, _, hqi⟩ := save_file_items_mem hf hit
  rw [hqi]
  exact ⟨rfl, rfl, rfl, rfl, rfl, rfl, rfl, q, hq, rfl, rfl, rfl⟩

/-- Witness for the amended claim C7 at a concrete two-post chunk. -/
theorem item_fields_and_chunk_post_id_witness :
    ∃ f ∈ (save_file wOk ⟨[post2020 "a" [], post2020 "b" []], [], []⟩).chunk_files,
      ∃ it ∈ f.items,
        it.post_id = toString f.seq ∧ it.creator = "AVGS" ∧ it.excerpt = "" ∧
        it.post_parent = "0" ∧ it.menu_order = "0" ∧ it.status = "publish" ∧
        it.post_type = "post" ∧
        ∃ q ∈ [post2020 "a" [], post2020 "b" []], it.title = q.title ∧ it.post_date = q.date ∧
          it.content = q.content ++ "\n\n<a href='" ++ q.link ++ "'>Original Post</a>" := by
  refine ⟨(save_file wOk ⟨[post2020 "a" [], post2020 "b" []], [], []⟩).chunk_files.head (by decide),
    List.head_mem _, ?_⟩
  refine ⟨((save_file wOk ⟨[post2020 "a" [], post2020 "b" []], [], []⟩).chunk_files.head
    (by decide)).items.head (by decide), List.head_mem _, ?_⟩
  exact item_fields_and_chunk_post_id wOk ⟨[post2020 "a" [], post2020 "b" []], [], []⟩
    _ (List.head_mem _) _ (List.head_mem _)

/-! ## Claim C3 counterexample: a crash mid-chunk loses the batch -/

/-- Counterexample to claim C3 as stated: fifty-one buffered posts of year
2020 should produce two chunks, but the first post carries a comment whose
canonical date crashes clean_date, so the flush raises and zero chunks are
emitted. -/
theorem crash_breaks_chunk_arithmetic :
    buffer51.length = 51 ∧
    (∀ p ∈ buffer51, canon_year p.date = some 2020) ∧
    (save_file wOk ⟨buffer51, [], []⟩).chunk_files.length = 0 ∧
    (buffer51.length + 49) / 50 = 2 := by
  refine ⟨by decide, by decide, by decide, by decide⟩


/-! ## chunks50 structure -/

theorem chunks50fuel_congr {f1 f2 : Nat} {l : List Post} (h1 : l.length ≤ f1)
    (h2 : l.length ≤ f2) : chunks50fuel f1 l = chunks50fuel f2 l := by
  induction f1 generalizing f2 l with
  | zero =>
    have : l = [] := List.eq_nil_of_length_eq_zero (by omega)
    subst this
    cases f2 <;> rfl
  | succ f1 ih =>
    cases l with
    | nil => cases f2 <;> rfl
    | cons p ps =>
      cases f2 with
      | zero => simp at h2
      | succ f2 =>
        simp only [chunks50fuel]
        congr 1
        exact ih (by simp at h1 ⊢; omega) (by simp at h2 ⊢; omega)

theorem chunks50_cons (p : Post) (ps : List Post) :
    chunks50 (p :: ps) = (p :: ps).take 50 :: chunks50 ((p :: ps).drop 50) := by
  show chunks50fuel (p :: ps).length (p :: ps) = _
  rw [show (p :: ps).length = ps.length + 1 from by simp]
  simp only [chunks50fuel]
  congr 1
  exact chunks50fuel_congr (by simp only [List.length_drop, List.length_cons]; omega) le_rfl

theorem chunks50_nil : chunks50 [] = [] := rfl

theorem chunks50_length (l : List Post) : (chunks50 l).length = (l.length + 49) / 50 := by
  generalize hn : l.length = n
  induction n using Nat.strong_induction_on generalizing l with
  | _ n ih =>
    cases l with
    | nil =>
      simp only [List.length_nil] at hn
      subst hn
      rfl
    | cons p ps =>
      rw [chunks50_cons]
      rw [List.length_cons] at hn
      by_cases h50 : (p :: ps).length ≤ 50
      · have hd : (p :: ps).drop 50 = [] := List.drop_eq_nil_of_le h50
        rw [hd, chunks50_nil]
        simp only [List.length_cons, List.length_nil]
        have h50n : n ≤ 50 := by simp only [List.length_cons] at h50; omega
        have h1 : (n + 49) / 50 = 1 := Nat.div_eq_of_lt_le (by omega) (by omega)
        omega
      · push_neg at h50
        have hlen : ((p :: ps).drop 50).length = n - 50 := by
          rw [List.length_drop, List.length_cons]
          omega
        have hrec := ih (n - 50) (by omega) _ hlen
        rw [List.length_cons, hrec]
        have h50n : 50 < n := by simp only [List.length_cons] at h50; omega
        have h2 : n - 50 + 49 = n - 1 := by omega
        rw [h2]
        have h3 : n + 49 = (n - 1) + 50 := by omega
        rw [h3, Nat.add_div_right _ (by norm_num)]

theorem chunks50_flatten (l : List Post) : (chunks50 l).flatten = l := by
  generalize hn : l.length = n
  induction n using Nat.strong_induction_on generalizing l with
  | _ n ih =>
    cases l with
    | nil =>
      simp only [List.length_nil] at hn
      subst hn
      rfl
    | cons p ps =>
      rw [chunks50_cons]
      by_cases h50 : (p :: ps).length ≤ 50
      · have hd : (p :: ps).drop 50 = [] := List.drop_eq_nil_of_le h50
        rw [hd, chunks50_nil, List.flatten_cons, List.take_of_length_le h50]
        simp
      · push_neg at h50
        rw [List.length_cons] at hn
        have hlen : ((p :: ps).drop 50).length = n - 50 := by
          rw [List.length_drop, List.length_cons]
          omega
        have hrec := ih (n - 50) (by omega) _ hlen
        rw [List.flatten_cons, hrec, List.take_append_drop]

theorem chunks50_sizes {l ch : List Post} (h : ch ∈ chunks50 l) : ch.length ≤ 50 := by
  generalize hn : l.length = n
  induction n using Nat.strong_induction_on generalizing l with
  | _ n ih =>
    cases l with
    | nil => rw [chunks50_nil] at h; simp at h
    | cons p ps =>
      rw [chunks50_cons] at h
      rcases List.mem_cons.mp h with h1 | h1
      · subst h1
        simp [List.length_take]
      · rw [List.length_cons] at hn
        have hlen : ((p :: ps).drop 50).length = n - 50 := by
          rw [List.length_drop, List.length_cons]
          omega
        exact ih (n - 50) (by omega) h1 hlen

/-! ## Crash-free serialization specs -/

theorem serialize_comments_nocrash (p : Post) (l : List CommentData)
    (h : ∀ c ∈ l, (clean_date c.date).isSome = true) :
    (serialize_comments p l).2.2 = false := by
  induction l with
  | nil => rfl
  | cons c rest ih =>
    obtain ⟨cd, hcd⟩ := Option.isSome_iff_exists.mp (h c (by simp))
    have ih2 := ih fun x hx => h x (by simp [hx])
    cases hsf : strict_comment_date cd <;> simp [serialize_comments, hcd, hsf, ih2]

theorem serialize_chunk_nocrash (fn : Nat) (l : List Post)
    (h : ∀ q ∈ l, ∀ c ∈ q.comments, (clean_date c.date).isSome = true) :
    (serialize_chunk fn l).2.2 = false ∧
    (serialize_chunk fn l).1 = l.map fun q => mkItem q fn (serialize_comments q q.comments).1 := by
  induction l with
  | nil => exact ⟨rfl, rfl⟩
  | cons p rest ih =>
    have hp : (serialize_comments p p.comments).2.2 = false :=
      serialize_comments_nocrash p p.comments (h p (by simp))
    have ih2 := ih fun q hq => h q (by simp [hq])
    simp [serialize_chunk, hp, ih2.1, ih2.2]

theorem chunk_loop_nocrash (y : Nat) (w : Nat → Nat → Bool) (chunks : List (List Post)) (fn : Nat)
    (h : ∀ ch ∈ chunks, ∀ q ∈ ch, ∀ c ∈ q.comments, (clean_date c.date).isSome = true) :
    (chunk_loop y w chunks fn).2.2.2.2 = false ∧
    (chunk_loop y w chunks fn).2.2.2.1 = fn + chunks.length ∧
    (chunk_loop y w chunks fn).1.map (·.seq) = List.range' fn chunks.length ∧
    (∀ f ∈ (chunk_loop y w chunks fn).1, f.year = y) ∧
    (chunk_loop y w chunks fn).1.map (fun f => f.items.map (·.title)) =
      chunks.map fun ch => ch.map (·.title) := by
  induction chunks generalizing fn with
  | nil => exact ⟨rfl, rfl, rfl, by simp [chunk_loop], rfl⟩
  | cons ch rest ih =>
    have hch := serialize_chunk_nocrash fn ch (h ch (by simp))
    have ih2 := ih (fn + 1) fun ch2 h2 => h ch2 (by simp [h2])
    refine ⟨?_, ?_, ?_, ?_, ?_⟩
    · simp [chunk_loop, hch.1, ih2.1]
    · simp only [chunk_loop, hch.1]
      simp only [Bool.false_eq_true, if_false, List.length_cons]
      rw [ih2.2.1]
      omega
    · simp only [chunk_loop, hch.1]
      simp only [Bool.false_eq_true, if_false, List.length_cons, List.map_cons]
      rw [ih2.2.2.1, List.range'_succ]
    · intro f hf
      simp only [chunk_loop, hch.1] at hf
      simp only [Bool.false_eq_true, if_false] at hf
      rcases List.mem_cons.mp hf with h1 | h1
      · subst h1; rfl
      · exact ih2.2.2.2.1 f h1
    · simp only [chunk_loop, hch.1]
      simp only [Bool.false_eq_true, if_false, List.map_cons]
      rw [ih2.2.2.2.2, hch.2]
      congr 1
      rw [List.map_map]
      rfl

/-! ## Lookup lemmas for the year-to-file-number dict -/

theorem lookup_append_single_none {l : List (Nat × Nat)} {y v : Nat}
    (h : l.lookup y = none) : (l ++ [(y, v)]).lookup y = some v := by
  induction l with
  | nil => simp [List.lookup]
  | cons kv rest ih =>
    rcases kv with ⟨k, v'⟩
    rw [List.cons_append]
    cases hb : (y == k) with
    | true => simp [List.lookup, hb] at h
    | false =>
      simp only [List.lookup, hb] at h ⊢
      exact ih h

theorem lookup_assocSet_self (l : List (Nat × Nat)) (k v : Nat) :
    (assocSet l k v).lookup k = some v := by
  induction l with
  | nil => simp [assocSet, List.lookup]
  | cons kv rest ih =>
    rcases kv with ⟨k', v'⟩
    by_cases hk : k' = k
    · subst hk
      simp [assocSet, List.lookup]
    · have hb : (k == k') = false := beq_eq_false_iff_ne.mpr fun hkk => hk hkk.symm
      simp only [assocSet, if_neg hk, List.lookup, hb]
      exact ih

/-! ## Single-year flush specification -/

theorem group_go_single (y : Nat) (posts acc : List Post) (rows : List (String × String))
    (h : ∀ p ∈ posts, canon_year p.date = some y) :
    group_go [(y, acc)] rows posts = ([(y, acc ++ posts)], rows) := by
  induction posts generalizing acc with
  | nil => simp [group_go]
  | cons p rest ih =>
    have hp := h p (by simp)
    have ih2 := ih (acc ++ [p]) fun q hq => h q (by simp [hq])
    simp only [group_go, hp]
    rw [show insert_post [(y, acc)] y p = [(y, acc ++ [p])] from by simp [insert_post]]
    rw [ih2]
    simp

theorem group_by_year_single (y : Nat) (posts : List Post) (hne : posts ≠ [])
    (h : ∀ p ∈ posts, canon_year p.date = some y) :
    group_by_year posts = ([(y, posts)], []) := by
  cases posts with
  | nil => exact absurd rfl hne
  | cons p rest =>
    have hp := h p (by simp)
    rw [group_by_year]
    simp only [group_go, hp, insert_post]
    rw [group_go_single y rest [p] [] fun q hq => h q (by simp [hq])]
    simp

theorem year_loop_single (w : Nat → Nat → Bool) (y : Nat) (posts : List Post)
    (fns : List (Nat × Nat))
    (h : ∀ q ∈ posts, ∀ c ∈ q.comments, (clean_date c.date).isSome = true) :
    (year_loop w [(y, posts)] fns).2.2.2.2 = false ∧
    (year_loop w [(y, posts)] fns).1.map (·.seq) =
      List.range' ((fns.lookup y).getD 1) ((posts.length + 49) / 50) ∧
    (∀ f ∈ (year_loop w [(y, posts)] fns).1, f.year = y) ∧
    (year_loop w [(y, posts)] fns).1.map (fun f => f.items.map (·.title)) =
      (chunks50 posts).map (fun ch => ch.map (·.title)) ∧
    (((year_loop w [(y, posts)] fns).2.2.2.1).lookup y).getD 1 =
      (fns.lookup y).getD 1 + (posts.length + 49) / 50 := by
  have hch : ∀ ch ∈ chunks50 posts, ∀ q ∈ ch, ∀ c ∈ q.comments,
      (clean_date c.date).isSome = true :=
    fun ch hc q hq => h q (chunks50_mem hc hq)
  have hf0 : ((if ((fns.lookup y).isSome) then fns else fns ++ [(y, 1)]).lookup y).getD 1 =
      (fns.lookup y).getD 1 := by
    cases hl : fns.lookup y with
    | none => simp [hl, lookup_append_single_none hl]
    | some v => simp [hl]
  set fns1 := if ((fns.lookup y).isSome) then fns else fns ++ [(y, 1)] with hfns1
  set f0 := (fns1.lookup y).getD 1 with hf0def
  have hcl := chunk_loop_nocrash y w (chunks50 posts) f0 hch
  have hexp : year_loop w [(y, posts)] fns =
      ((chunk_loop y w (chunks50 posts) f0).1,
       (chunk_loop y w (chunks50 posts) f0).2.1,
       (chunk_loop y w (chunks50 posts) f0).2.2.1,
       assocSet fns1 y (chunk_loop y w (chunks50 posts) f0).2.2.2.1, false) := by
    simp only [year_loop, ← hfns1, ← hf0def, hcl.1]
    simp [year_loop]
  have hlen : (chunk_loop y w (chunks50 posts) f0).2.2.2.1 = f0 + (posts.length + 49) / 50 := by
    rw [hcl.2.1, chunks50_length]
  rw [hexp]
  dsimp only
  refine ⟨rfl, ?_, ?_, ?_, ?_⟩
  · rw [hcl.2.2.1, chunks50_length, hf0]
  · exact hcl.2.2.2.1
  · exact hcl.2.2.2.2
  · rw [hlen, lookup_assocSet_self, Option.getD_some, hf0]


theorem save_file_single_year (w : Nat → Nat → Bool) (y : Nat) (st : ScraperState)
    (hne : st.posts_data ≠ [])
    (hall : ∀ p ∈ st.posts_data, canon_year p.date = some y)
    (hnc : ∀ p ∈ st.posts_data, ∀ c ∈ p.comments, (clean_date c.date).isSome = true) :
    (save_file w st).raised = false ∧
    (save_file w st).chunk_files.map (·.seq) =
      List.range' ((st.file_number.lookup y).getD 1) ((st.posts_data.length + 49) / 50) ∧
    (∀ f ∈ (save_file w st).chunk_files, f.year = y) ∧
    (∀ f ∈ (save_file w st).chunk_files, f.items.length ≤ 50) ∧
    ((save_file w st).chunk_files.map (fun f => f.items.map (·.title))).flatten =
      st.posts_data.map (·.title) ∧
    (((save_file w st).state.file_number.lookup y).getD 1) =
      ((st.file_number.lookup y).getD 1) + (st.posts_data.length + 49) / 50 ∧
    (save_file w st).state.posts_data = [] := by
  have hg := group_by_year_single y st.posts_data hne hall
  have hy := year_loop_single w y st.posts_data st.file_number hnc
  have hcf : (save_file w st).chunk_files =
      (year_loop w [(y, st.posts_data)] st.file_number).1 := by
    show (year_loop w (group_by_year st.posts_data).1 st.file_number).1 = _
    rw [hg]
  have hraised : (save_file w st).raised = false := by
    show (year_loop w (group_by_year st.posts_data).1 st.file_number).2.2.2.2 = false
    rw [hg]
    exact hy.1
  have hfn : (save_file w st).state.file_number =
      (year_loop w [(y, st.posts_data)] st.file_number).2.2.2.1 := by
    show (year_loop w (group_by_year st.posts_data).1 st.file_number).2.2.2.1 = _
    rw [hg]
  have htitles : (save_file w st).chunk_files.map (fun f => f.items.map (·.title)) =
      (chunks50 st.posts_data).map fun ch => ch.map (·.title) := by
    rw [hcf]
    exact hy.2.2.2.1
  refine ⟨hraised, ?_, ?_, ?_, ?_, ?_, ?_⟩
  · rw [hcf]
    exact hy.2.1
  · rw [hcf]
    exact hy.2.2.1
  · intro f hf
    have h1 : f.items.map (·.title) ∈
        (save_file w st).chunk_files.map (fun f => f.items.map (·.title)) :=
      List.mem_map_of_mem _ hf
    rw [htitles] at h1
    obtain ⟨ch, hch, heq⟩ := List.mem_map.mp h1
    have hlen : ch.length = f.items.length := by
      have h2 := congrArg List.length heq
      simpa using h2
    rw [← hlen]
    exact chunks50_sizes hch
  · rw [htitles, ← List.map_flatten, chunks50_flatten]
  · rw [hfn]
    exact hy.2.2.2.2
  · show (if (year_loop w (group_by_year st.posts_data).1 st.file_number).2.2.2.2 then _ else []) = []
    rw [hg]
    rw [hy.1]
    simp

/-! ## Claim C3 (amended): chunking and sequence numbers across a run -/

theorem run_aux (w : Nat → Nat → Bool) (y : Nat) (batches : List (List Post))
    (fns : List (Nat × Nat)) (csv : List (String × String × String))
    (h : ∀ b ∈ batches, ∀ p ∈ b, canon_year p.date = some y ∧
      ∀ c ∈ p.comments, (clean_date c.date).isSome = true) :
    (run w batches ⟨[], fns, csv⟩).2.map (·.seq) =
      List.range' ((fns.lookup y).getD 1) (totalChunks batches) ∧
    (((run w batches ⟨[], fns, csv⟩).1.file_number.lookup y).getD 1) =
      ((fns.lookup y).getD 1) + totalChunks batches ∧
    (∀ f ∈ (run w batches ⟨[], fns, csv⟩).2, f.year = y ∧ f.items.length ≤ 50) ∧
    ((run w batches ⟨[], fns, csv⟩).2.map (fun f => f.items.map (·.title))).flatten =
      batches.flatten.map (·.title) := by
  induction batches generalizing fns csv with
  | nil => simp [run, totalChunks]
  | cons b rest ih =>
    cases b with
    | nil =>
      have hsv : save_file w ⟨[] ++ [], fns, csv⟩ =
          ⟨⟨[], fns, csv ++ []⟩, [], [], [], false⟩ := rfl
      have ih2 := ih fns (csv ++ []) fun b2 hb2 => h b2 (by simp [hb2])
      simp only [run, hsv]
      simp only [Bool.false_eq_true, if_false]
      have hch : totalChunks ([] :: rest) = totalChunks rest := by
        simp [totalChunks]
      rw [hch]
      refine ⟨?_, ?_, ?_, ?_⟩
      · exact ih2.1
      · exact ih2.2.1
      · exact ih2.2.2.1
      · simpa using ih2.2.2.2
    | cons p ps =>
      have hb := h (p :: ps) (by simp)
      have hsf := save_file_single_year w y ⟨p :: ps, fns, csv⟩ (by simp)
        (fun q hq => (hb q hq).1) (fun q hq => (hb q hq).2)
      dsimp only at hsf
      have hcons : run w ((p :: ps) :: rest) ⟨[], fns, csv⟩ =
          (if (save_file w ⟨p :: ps, fns, csv⟩).raised then
            ((save_file w ⟨p :: ps, fns, csv⟩).state,
             (save_file w ⟨p :: ps, fns, csv⟩).chunk_files)
          else
            ((run w rest (save_file w ⟨p :: ps, fns, csv⟩).state).1,
             (save_file w ⟨p :: ps, fns, csv⟩).chunk_files ++
               (run w rest (save_file w ⟨p :: ps, fns, csv⟩).state).2)) := rfl
      rw [hcons, hsf.1]
      simp only [Bool.false_eq_true, if_false]
      set r := save_file w ⟨p :: ps, fns, csv⟩ with hr
      have hstate : r.state = ⟨[], r.state.file_number, r.state.csv_rows⟩ := by
        have h1 := hsf.2.2.2.2.2.2
        rcases hs : r.state with ⟨pd, fn2, cs2⟩
        rw [hs] at h1
        dsimp only at h1 ⊢
        rw [h1]
      have ih2 := ih r.state.file_number r.state.csv_rows
        (fun b2 hb2 => h b2 (by simp [hb2]))
      rw [← hstate] at ih2
      have hcb : totalChunks ((p :: ps) :: rest) =
          ((p :: ps).length + 49) / 50 + totalChunks rest := by
        simp [totalChunks]
      rw [hcb]
      have hlkr : (r.state.file_number.lookup y).getD 1 =
          ((fns.lookup y).getD 1) + ((p :: ps).length + 49) / 50 := hsf.2.2.2.2.2.1
      refine ⟨?_, ?_, ?_, ?_⟩
      · rw [List.map_append, ih2.1, hlkr]
        rw [hsf.2.1]
        have hra := List.range'_append ((fns.lookup y).getD 1) (((p :: ps).length + 49) / 50)
          (totalChunks rest) 1
        simp only [one_mul] at hra
        rw [hra, Nat.add_comm (totalChunks rest)]
      · rw [ih2.2.1, hlkr]
        omega
      · intro f hf
        rcases List.mem_append.mp hf with h1 | h1
        · exact ⟨hsf.2.2.1 f h1, hsf.2.2.2.1 f h1⟩
        · exact ih2.2.2.1 f h1
      · rw [List.map_append, List.flatten_append, ih2.2.2.2]
        rw [hsf.2.2.2.2.1]
        simp

/-- Claim C3 (amended): over a run whose buffered posts all belong to one
year, parse canonically and carry no comment that crashes the per-comment
clean-date step, the export writer serializes ceil(n/50) chunks per flush
(totalChunks in all), each chunk holds at most 50 posts in arrival order,
and the per-year sequence numbers across all flush calls are exactly
1, 2, 3, ... with no gaps or reuse, for every file-write oracle (a failed
chunk write still consumes its sequence number). -/
theorem chunk_count_and_sequence_numbers (w : Nat → Nat → Bool) (y : Nat)
    (batches : List (List Post))
    (h : ∀ b ∈ batches, ∀ p ∈ b, canon_year p.date = some y ∧
      ∀ c ∈ p.comments, (clean_date c.date).isSome = true) :
    (run w batches ⟨[], [], []⟩).2.map (·.seq) = List.range' 1 (totalChunks batches) ∧
    (run w batches ⟨[], [], []⟩).2.length = totalChunks batches ∧
    (∀ f ∈ (run w batches ⟨[], [], []⟩).2, f.year = y ∧ f.items.length ≤ 50) ∧
    ((run w batches ⟨[], [], []⟩).2.map (fun f => f.items.map (·.title))).flatten =
      batches.flatten.map (·.title) := by
  have ha := run_aux w y batches [] [] h
  refine ⟨ha.1, ?_, ha.2.2.1, ha.2.2.2⟩
  have := congrArg List.length ha.1
  simpa using this

/-- Witness for the amended claim C3: two flushes of sixty valid posts each
produce chunks with sequence numbers one to four. -/
theorem chunk_count_and_sequence_numbers_witness :
    (run wOk [(List.range 60).map fun i => post2020 (toString i) [],
              (List.range 60).map fun i => post2020 (toString i) []] ⟨[], [], []⟩).2.map (·.seq) =
      List.range' 1 (totalChunks [(List.range 60).map fun i => post2020 (toString i) [],
        (List.range 60).map fun i => post2020 (toString i) []]) ∧
    (run wOk [(List.range 60).map fun i => post2020 (toString i) [],
              (List.range 60).map fun i => post2020 (toString i) []] ⟨[], [], []⟩).2.length =
      totalChunks [(List.range 60).map fun i => post2020 (toString i) [],
        (List.range 60).map fun i => post2020 (toString i) []] ∧
    (∀ f ∈ (run wOk [(List.range 60).map fun i => post2020 (toString i) [],
        (List.range 60).map fun i => post2020 (toString i) []] ⟨[], [], []⟩).2,
      f.year = 2020 ∧ f.items.length ≤ 50) ∧
    ((run wOk [(List.range 60).map fun i => post2020 (toString i) [],
        (List.range 60).map fun i => post2020 (toString i) []] ⟨[], [], []⟩).2.map
      (fun f => f.items.map (·.title))).flatten =
      ([(List.range 60).map fun i => post2020 (toString i) [],
        (List.range 60).map fun i => post2020 (toString i) []] : List (List Post)).flatten.map
        (·.title) :=
  chunk_count_and_sequence_numbers wOk 2020 _ (by decide)


/-! ## Claim C8: the parent resolver -/

theorem collectThreadIds_skip {pre : List Anchor} (l : List Anchor)
    (h : ∀ b ∈ pre, anchorStep b = some none) :
    collectThreadIds (pre ++ l) = collectThreadIds l := by
  induction pre with
  | nil => rfl
  | cons b pre ih =>
    have hb := h b (by simp)
    rw [List.cons_append]
    simp only [collectThreadIds, hb]
    exact ih fun x hx => h x (by simp [hx])

theorem collectThreadIds_isSome {l : List Anchor} (h : ∀ b ∈ l, anchorStep b ≠ none) :
    (collectThreadIds l).isSome = true := by
  induction l with
  | nil => rfl
  | cons b rest ih =>
    have hb := h b (by simp)
    have ih2 := ih fun x hx => h x (by simp [hx])
    cases hstep : anchorStep b with
    | none => exact absurd hstep hb
    | some o =>
      cases o with
      | none => simpa [collectThreadIds, hstep] using ih2
      | some t =>
        simp only [collectThreadIds, hstep]
        obtain ⟨ids, hids⟩ := Option.isSome_iff_exists.mp ih2
        simp [hids]

/-- Claim C8: the parent resolver returns empty on any fetch failure or any
parse failure (never raising to the caller); when the fetched page contains
Parent anchors carrying a thread id, the first such anchor in document
order resolves the parent id; when no anchor yields a thread id, the
comment's parent id is empty; a comment section without a thread link also
gets an empty parent id. -/
theorem parent_resolver_first_anchor_and_failures :
    (extract_thread_ids (.error ()) = []) ∧
    (∀ links, collectThreadIds links = none → extract_thread_ids (.ok links) = []) ∧
    (∀ (fp : String → Except Unit (List Anchor)) (u : String) (pre rest : List Anchor)
      (a : Anchor) (t : String),
      fp u = .ok (pre ++ a :: rest) →
      (∀ b ∈ pre, anchorStep b = some none) →
      anchorStep a = some (some t) →
      (∀ b ∈ rest, anchorStep b ≠ none) →
      resolve_parent fp (some u) = t) ∧
    (∀ (fp : String → Except Unit (List Anchor)) (u : String) (links : List Anchor),
      fp u = .ok links → (∀ b ∈ links, anchorStep b = some none) →
      resolve_parent fp (some u) = "") ∧
    (∀ (fp : String → Except Unit (List Anchor)) (u : String),
      fp u = .error () → resolve_parent fp (some u) = "") ∧
    (∀ fp, resolve_parent fp none = "") := by
  have hallnone : ∀ links : List Anchor, (∀ b ∈ links, anchorStep b = some none) →
      collectThreadIds links = some [] := by
    intro links h
    induction links with
    | nil => rfl
    | cons b rest ih =>
      have hb := h b (by simp)
      simp only [collectThreadIds, hb]
      exact ih fun x hx => h x (by simp [hx])
  refine ⟨rfl, ?_, ?_, ?_, ?_, ?_⟩
  · intro links h
    simp [extract_thread_ids, h]
  · intro fp u pre rest a t hfp hpre ha hrest
    have h1 : collectThreadIds (pre ++ a :: rest) = collectThreadIds (a :: rest) :=
      collectThreadIds_skip _ hpre
    have h2 : (collectThreadIds rest).isSome = true := collectThreadIds_isSome hrest
    obtain ⟨ids, hids⟩ := Option.isSome_iff_exists.mp h2
    simp only [resolve_parent, extract_thread_ids, hfp, h1, collectThreadIds, ha, hids]
    simp
  · intro fp u links hfp h
    simp [resolve_parent, extract_thread_ids, hfp, hallnone links h]
  · intro fp u hfp
    simp [resolve_parent, extract_thread_ids, hfp]
  · intro fp
    rfl

/-- Witness for claim C8 at concrete pages: a fetch failure, a crashing
parse, a page with two Parent anchors where the first wins, and a page with
no Parent anchor. -/
theorem parent_resolver_witness :
    extract_thread_ids (.error ()) = [] ∧
    extract_thread_ids (.ok [⟨"Parent", none⟩, parentAnchor66]) = [] ∧
    resolve_parent fpTwoParents (some "u") = "55" ∧
    resolve_parent (fun _ => .ok [plainAnchor]) (some "u") = "" ∧
    resolve_parent (fun _ => .error ()) (some "u") = "" ∧
    resolve_parent fpTwoParents none = "" := by
  have h := parent_resolver_first_anchor_and_failures
  refine ⟨h.1, h.2.1 _ (by decide), ?_, ?_, ?_, h.2.2.2.2.2 fpTwoParents⟩
  · exact h.2.2.1 fpTwoParents "u" [plainAnchor] [parentAnchor66] parentAnchor55 "55"
      rfl (by decide) (by decide) (by decide)
  · exact h.2.2.2.1 _ "u" [plainAnchor] rfl (by decide)
  · exact h.2.2.2.2.1 _ "u" rfl

/-! ## Claim C9: missing preceding header -/

/-- Claim C9: a post fragment with no preceding header fragment extracts to
none rather than raising (the model is a total function), and the page
result set for a page containing it is exactly the result set of its
sibling fragments: the fragment is excluded and siblings are unaffected. -/
theorem missing_header_excluded_from_page (dateOf : String → String)
    (commentsOf : String → List CommentData) (frag : Fragment) (hh : frag.header = none)
    (pre rest : List Fragment) :
    scrape_post dateOf commentsOf frag = none ∧
    page_results dateOf commentsOf (pre ++ frag :: rest) =
      page_results dateOf commentsOf pre ++ page_results dateOf commentsOf rest := by
  have h1 : scrape_post dateOf commentsOf frag = none := by
    simp [scrape_post, hh]
  exact ⟨h1, by simp [page_results, List.filterMap_append, List.filterMap_cons, h1]⟩

/-- Witness for claim C9: a headerless fragment between two extractable
fragments is excluded while both siblings survive. -/
theorem missing_header_excluded_witness :
    scrape_post (fun _ => "D") (fun _ => []) headerlessFragment = none ∧
    page_results (fun _ => "D") (fun _ => [])
        ([headeredFragment] ++ headerlessFragment :: [headeredFragment]) =
      page_results (fun _ => "D") (fun _ => []) [headeredFragment] ++
        page_results (fun _ => "D") (fun _ => []) [headeredFragment] :=
  missing_header_excluded_from_page (fun _ => "D") (fun _ => []) headerlessFragment rfl
    [headeredFragment] [headeredFragment]

/-! ## Claim C10: the comment Post ID field -/

/-- Claim C10: every comment built by scrape_comments carries as its Post ID
the Python repr of the scraper's whole year-to-file-number dict at scrape
time (the empty dict renders as two braces), the scrape never changes that
dict, and hence all comments scraped between two consecutive flushes, even
across different posts, carry the same Post ID string. -/
theorem comment_post_id_is_dict_repr (ljcmtIds : String → List String)
    (fetchPage : String → Except Unit (List Anchor)) (st : ScrapeState)
    (secs : List CommentSection) :
    (∀ c ∈ (scrape_comments ljcmtIds fetchPage st secs).1,
      c.postId = pyDictRepr st.file_number) ∧
    (scrape_comments ljcmtIds fetchPage st secs).2.file_number = st.file_number ∧
    (∀ secs2 : List CommentSection,
      ∀ c1 ∈ (scrape_comments ljcmtIds fetchPage st secs).1,
      ∀ c2 ∈ (scrape_comments ljcmtIds fetchPage
          (scrape_comments ljcmtIds fetchPage st secs).2 secs2).1,
        c1.postId = c2.postId) ∧
    pyDictRepr [] = "\x7b\x7d" := by
  have main : ∀ (secs : List CommentSection) (st : ScrapeState),
      (∀ c ∈ (scrape_comments ljcmtIds fetchPage st secs).1,
        c.postId = pyDictRepr st.file_number) ∧
      (scrape_comments ljcmtIds fetchPage st secs).2.file_number = st.file_number := by
    intro secs
    induction secs with
    | nil => exact fun st => ⟨by simp [scrape_comments], rfl⟩
    | cons sec rest ih =>
      intro st
      have ih2 := ih { st with comment_id := st.comment_id + 1 }
      constructor
      · intro c hc
        simp only [scrape_comments] at hc
        rcases List.mem_cons.mp hc with h1 | h1
        · rw [h1]
        · exact ih2.1 c h1
      · exact ih2.2
  refine ⟨(main secs st).1, (main secs st).2, ?_, rfl⟩
  intro secs2 c1 h1 c2 h2
  rw [(main secs st).1 c1 h1, (main secs2 _).1 c2 h2, (main secs st).2]

/-- Witness for claim C10 at a concrete scrape of two sections from the
initial state. -/
theorem comment_post_id_witness :
    (∀ c ∈ (scrape_comments ljNone fpTwoParents ⟨1, []⟩ [sampleSection, sampleSection]).1,
      c.postId = pyDictRepr ([] : List (Nat × Nat))) ∧
    (scrape_comments ljNone fpTwoParents ⟨1, []⟩ [sampleSection, sampleSection]).2.file_number =
      ([] : List (Nat × Nat)) ∧
    (∀ secs2 : List CommentSection,
      ∀ c1 ∈ (scrape_comments ljNone fpTwoParents ⟨1, []⟩ [sampleSection, sampleSection]).1,
      ∀ c2 ∈ (scrape_comments ljNone fpTwoParents
          (scrape_comments ljNone fpTwoParents ⟨1, []⟩ [sampleSection, sampleSection]).2 secs2).1,
        c1.postId = c2.postId) ∧
    pyDictRepr [] = "\x7b\x7d" :=
  comment_post_id_is_dict_repr ljNone fpTwoParents ⟨1, []⟩ [sampleSection, sampleSection]


end LJ
